import Mathlib

/-!
Verification of the Data_Prep repository against its specification.

The repository has three scripts; the claims cover:
* `data_analysis.py` — per-sheet bottom-up scan for the last populated row,
  a process-pool orchestrator that re-sorts results into workbook order,
  and a markdown report writer;
* `Xlsx_to_parquet.py` — `normalize_cell` string normalisation and the
  surrogate-key assignment in `build_dictionary`.

Python integers are modelled as `ℤ` (row indices can be compared against an
arbitrary header row), counts as `ℕ`, and cell values as an inductive type
capturing exactly the distinctions the code makes.
-/

namespace DataPrep

/-- Python whitespace, as used by `str.strip`, `str.isspace` and the regex
class `\s` (Unicode mode): the ASCII whitespace characters, the C1 separators
0x1C–0x1F, NEL, NBSP, and the Unicode space separators. -/
def pyIsSpace (c : Char) : Bool :=
  (9 ≤ c.toNat && c.toNat ≤ 13) || (28 ≤ c.toNat && c.toNat ≤ 31) ||
  c.toNat == 32 || c.toNat == 0x85 || c.toNat == 0xA0 || c.toNat == 0x1680 ||
  (0x2000 ≤ c.toNat && c.toNat ≤ 0x200A) || c.toNat == 0x2028 ||
  c.toNat == 0x2029 || c.toNat == 0x202F || c.toNat == 0x205F ||
  c.toNat == 0x3000

/-- A cell value as `openpyxl` delivers it with `data_only=True`: `None` for an
empty cell, a string, or a non-string scalar (number, date, bool), which the
code's membership test `v not in (None, "", " ")` can never equate with `None`
or with a string. -/
inductive CellValue where
  | none
  | str (s : String)
  | num (q : ℚ)
deriving DecidableEq, Repr

/-- A worksheet: its name, the extent reported by openpyxl
(`ws.max_row or 0`, `ws.max_column or 0`) and the cell grid
(`ws.cell(row=r, column=c).value`). -/
structure Sheet where
  name : String
  max_row : ℕ
  max_col : ℕ
  cell : ℤ → ℕ → CellValue

/-- The dictionary returned by `detect_last_populated_row`. -/
structure ScanResult where
  sheet : String
  header_row : ℤ
  max_row : ℕ
  last_populated_row : ℤ
  real_row_count : ℤ
  elapsed_sec : ℚ
deriving DecidableEq, Repr

/-- The membership test `v in (None, "", " ")` from
`data_analysis.py` line 60. -/
def inBlankTuple : CellValue → Bool
  | .none => true
  | .str s => s == "" || s == " "
  | .num _ => false

/-- `[ws.cell(row=r, column=c).value for c in range(1, max_col + 1)]`
(`data_analysis.py` line 59). -/
def rowValues (ws : Sheet) (r : ℤ) : List CellValue :=
  (List.range ws.max_col).map (fun c => ws.cell r (c + 1))

/-- `any(v not in (None, "", " ") for v in values)`
(`data_analysis.py` line 60). -/
def rowPopulated (ws : Sheet) (r : ℤ) : Bool :=
  (rowValues ws r).any (fun v => !inBlankTuple v)

/-- The loop `for r in range(max_row, header_row, -1)` with early `break`:
`n` is the number of iterations remaining, `r` the current row; the loop
returns the first `r` satisfying `p`, else the initial value `header_row`. -/
def scanDown (p : ℤ → Bool) (header_row : ℤ) : ℕ → ℤ → ℤ
  | 0, _ => header_row
  | n + 1, r => if p r then r else scanDown p header_row n (r - 1)

/-- `detect_last_populated_row` (`data_analysis.py` lines 47–74).  The wall
clock is external input, so the measured `elapsed` is a parameter. -/
def detect_last_populated_row (ws : Sheet) (header_row : ℤ) (elapsed : ℚ) :
    ScanResult :=
  let max_row := ws.max_row
  let last_populated :=
    scanDown (fun r => rowPopulated ws r) header_row
      ((max_row : ℤ) - header_row).toNat (max_row : ℤ)
  { sheet := ws.name
    header_row := header_row
    max_row := max_row
    last_populated_row := last_populated
    real_row_count := max 0 (last_populated - header_row)
    elapsed_sec := elapsed }

/-- A demo sheet: rows 1–3 hold text, rows 4–5 hold empty strings. -/
def wsDemo : Sheet :=
  { name := "Demo"
    max_row := 5
    max_col := 1
    cell := fun r _ => if r ≤ 3 then CellValue.str "x" else CellValue.str "" }

/-- A sheet whose single data row holds a tab character: every cell of row 2
is whitespace-only, yet the code counts the row as populated. -/
def wsTab : Sheet :=
  { name := "Tab"
    max_row := 2
    max_col := 1
    cell := fun r _ => if r = 2 then CellValue.str "\t" else CellValue.str "h" }

/-- Blankness as the specification words it: a cell is blank when it is empty
or holds only whitespace ("a value other than empty/blank/whitespace"). -/
def cellBlankSpec : CellValue → Bool
  | .none => true
  | .str s => s.data.all pyIsSpace
  | .num _ => false

/-- A sheet with nothing below the header: every cell is `None`. -/
def emptyWs : Sheet :=
  { name := "Empty", max_row := 5, max_col := 2,
    cell := fun _ _ => CellValue.none }

/-- `HEADER_ROW = 1` from the CONFIG block of `data_analysis.py`. -/
def HEADER_ROW : ℤ := 1

/-- One pool task: `ex.submit(detect_last_populated_row, path, s, HEADER_ROW)`.
The measured wall-clock time of the task is the external input `elapsed`,
keyed by sheet name. -/
def scanOne (elapsed : String → ℚ) (ws : Sheet) : ScanResult :=
  detect_last_populated_row ws HEADER_ROW (elapsed ws.name)

/-- Lookup in the dict `order = {s: i for i, s in enumerate(sheets)}`: the
position of a sheet name in the workbook's sheet-name list (sheet names are
unique within a workbook, so first and last occurrence coincide). -/
def nameIndex : List String → String → ℕ
  | [], _ => 0
  | n :: rest, s => if n = s then 0 else nameIndex rest s + 1

/-- The sort key `lambda r: order[r["sheet"]]` from `analyze_workbook`. -/
def sheetOrderKey (names : List String) (r : ScanResult) : ℕ :=
  nameIndex names r.sheet

/-- `analyze_workbook` after collection (`data_analysis.py` lines 93–96): the
futures' results arrive in an arbitrary completion order (`completion`), and
`results.sort(key=lambda r: order[r["sheet"]])` — a stable sort, modelled by
insertion sort — restores the workbook's original sheet order. -/
def analyze_workbook (sheets : List Sheet) (completion : List ScanResult) :
    List ScanResult :=
  List.insertionSort
    (fun a b => sheetOrderKey (sheets.map Sheet.name) a ≤
      sheetOrderKey (sheets.map Sheet.name) b) completion

/-- The collection loop `for fut in as_completed(futs): results.append(fut.result())`:
walking the futures in completion order, the first failed task re-raises its
exception and aborts the collection. -/
def collect_results {ε : Type} : List (Except ε ScanResult) →
    Except ε (List ScanResult)
  | [] => .ok []
  | .error e :: _ => .error e
  | .ok r :: rest => Except.map (fun l => r :: l) (collect_results rest)

/-- `f"# Real row count analysis: {INPUT_XLSX}\n"` with the configured input
path (`write_report`, line 101). -/
def titleLine : List Char := "# Real row count analysis: Data_Base.xlsx\n".data

/-- The per-sheet block of `write_report` (lines 103–109): six formatted lines
followed by the blank separator line. -/
def sheetLines (r : ScanResult) : List (List Char) :=
  [ "## Sheet: **".data ++ (r.sheet.data ++ "**".data),
    "- Header row: **".data ++ ((toString r.header_row).data ++ "**".data),
    "- Excel max_row: **".data ++ ((toString r.max_row).data ++ "**".data),
    "- Last populated row: **".data ++
      ((toString r.last_populated_row).data ++ "**".data),
    "- Real row count: **".data ++
      ((toString r.real_row_count).data ++ "**".data),
    "- Elapsed: ".data ++ ((toString r.elapsed_sec).data ++ " s".data),
    [] ]

/-- The `lines` list built by `write_report`. -/
def report_lines (results : List ScanResult) : List (List Char) :=
  titleLine :: results.flatMap sheetLines

/-- The file content written by `write_report`: `"\n".join(lines)`. -/
def write_report (results : List ScanResult) : List Char :=
  List.intercalate ['\n'] (report_lines results)

/-- The fixed text of the elapsed-time line. -/
def elapsedPat : List Char := "- Elapsed: ".data

/-- Drop the elapsed-time lines of a report (used to state determinism of the
report modulo measured times). -/
def removeElapsedLines (lines : List (List Char)) : List (List Char) :=
  lines.filter (fun l => !(elapsedPat.isPrefixOf l))

/-- The per-sheet block without its elapsed-time line. -/
def sheetLinesNoElapsed (r : ScanResult) : List (List Char) :=
  [ "## Sheet: **".data ++ (r.sheet.data ++ "**".data),
    "- Header row: **".data ++ ((toString r.header_row).data ++ "**".data),
    "- Excel max_row: **".data ++ ((toString r.max_row).data ++ "**".data),
    "- Last populated row: **".data ++
      ((toString r.last_populated_row).data ++ "**".data),
    "- Real row count: **".data ++
      ((toString r.real_row_count).data ++ "**".data),
    [] ]

/-- The `__main__` block: `analyze_workbook` (collection plus re-sort) followed
by `write_report`; an exception from any task propagates out of the collection
and no report is produced (the `finally` clause only logs). -/
def run_main {ε : Type} (sheets : List Sheet)
    (completion : List (Except ε ScanResult)) : Except ε (List Char) :=
  match collect_results completion with
  | .error e => .error e
  | .ok results => .ok (write_report (analyze_workbook sheets results))

/-- A one-column sheet with two populated rows. -/
def wsA : Sheet :=
  { name := "A", max_row := 2, max_col := 1,
    cell := fun r _ => if r ≤ 2 then CellValue.str "x" else CellValue.none }

/-- A one-column one-row sheet. -/
def wsB : Sheet :=
  { name := "B", max_row := 1, max_col := 1,
    cell := fun _ _ => CellValue.str "y" }

/-- One run's wall-clock oracle: every task takes 0 seconds. -/
def elapsedZero : String → ℚ := fun _ => 0

/-- Another run's wall-clock oracle: every task takes 1 second. -/
def elapsedOne : String → ℚ := fun _ => 1

/-- A completion list whose only task failed. -/
def cw7 : List (Except String ScanResult) := [Except.error "boom"]

/-! Embedding of `Xlsx_to_parquet.py`. -/

/-- Input to `normalize_cell`: `pd.isna(x)` singles out NA/NaN values; for any
other value `str(x)` yields its canonical string form `s`. -/
inductive CellInput where
  | na
  | val (s : String)

/-- `str.strip()`: remove leading and trailing Python whitespace. -/
def stripChars (l : List Char) : List Char :=
  List.rdropWhile pyIsSpace (List.dropWhile pyIsSpace l)

/-- `s.replace(a, " ")` for a one-character needle `a`. -/
def replaceChar (a : Char) (l : List Char) : List Char :=
  l.map (fun c => if c = a then ' ' else c)

/-- `re.sub(r"\s+", " ", s)`: replace every maximal run of whitespace by one
space. -/
def collapseWs : List Char → List Char
  | [] => []
  | c :: rest =>
      if pyIsSpace c then ' ' :: collapseWs (rest.dropWhile pyIsSpace)
      else c :: collapseWs rest
termination_by l => l.length
decreasing_by
  · have := (List.dropWhile_suffix (l := rest) pyIsSpace).length_le
    simp only [List.length_cons]
    omega
  · simp only [List.length_cons]
    omega

/-- `normalize_cell` (`Xlsx_to_parquet.py` lines 18–22):
`str(x).strip().replace("\n", " ").replace("\t", " ")` then
`re.sub(r"\s+", " ", s)`, with `""` for NA input.  The result is returned as
its character list. -/
def normalize_cell : CellInput → List Char
  | .na => []
  | .val s => collapseWs (replaceChar '\t' (replaceChar '\n' (stripChars s.data)))

/-- A concrete messy cell for the C9 witness. -/
def xC9 : CellInput := CellInput.val "  a\t\nb  "

/-- One row of the flattened dictionary built by `tidy_letter_sheet`:
`level1_code`, `level1_name` (possibly `pd.NA`), `level2_code`,
`level2_name`, merged `comments` (possibly `pd.NA`). -/
structure DictRow where
  level1_code : String
  level1_name : Option String
  level2_code : String
  level2_name : String
  comments : Option String
deriving DecidableEq, Repr

/-- The comparison used by
`df_all.sort_values(["level1_code", "level2_code"], kind="stable")`:
lexicographic on the pair of key columns. -/
def rowLE (a b : DictRow) : Prop :=
  a.level1_code < b.level1_code ∨
    (a.level1_code = b.level1_code ∧ a.level2_code ≤ b.level2_code)

instance : DecidableRel rowLE := fun a b => by
  unfold rowLE
  infer_instance

instance : IsTotal DictRow rowLE := ⟨by
  intro a b
  unfold rowLE
  rcases lt_trichotomy a.level1_code b.level1_code with h | h | h
  · exact Or.inl (Or.inl h)
  · rcases le_total a.level2_code b.level2_code with h2 | h2
    · exact Or.inl (Or.inr ⟨h, h2⟩)
    · exact Or.inr (Or.inr ⟨h.symm, h2⟩)
  · exact Or.inr (Or.inl h)⟩

instance : IsTrans DictRow rowLE := ⟨by
  intro a b c hab hbc
  unfold rowLE at hab hbc ⊢
  rcases hab with h1 | ⟨h1, h1'⟩ <;> rcases hbc with h2 | ⟨h2, h2'⟩
  · exact Or.inl (h1.trans h2)
  · exact Or.inl (h2 ▸ h1)
  · exact Or.inl (h1 ▸ h2)
  · exact Or.inr ⟨h1.trans h2, h1'.trans h2'⟩⟩

/-- Lines 110–111 of `Xlsx_to_parquet.py`: stable sort of the concatenated
rows by `(level1_code, level2_code)` (pandas's stable kind, modelled by
insertion sort), then `reset_index` and `hepa_id = index + 1` prepended. -/
def assign_hepa_ids (rows : List DictRow) : List (ℕ × DictRow) :=
  (List.insertionSort rowLE rows).enum.map (fun p => (p.1 + 1, p.2))

lemma scanDown_spec (p : ℤ → Bool) (h : ℤ) (n : ℕ) :
    (scanDown p h n (h + n) = h ∨
      (p (scanDown p h n (h + n)) = true ∧ h < scanDown p h n (h + n) ∧
        scanDown p h n (h + n) ≤ h + n)) ∧
    ∀ r : ℤ, scanDown p h n (h + n) < r → r ≤ h + n → p r = false := by
  induction n with
  | zero =>
      refine ⟨Or.inl rfl, ?_⟩
      intro r h1 h2
      exfalso
      simp only [scanDown, Nat.cast_zero, add_zero] at h1 h2
      omega
  | succ n ih =>
      have hcast : h + ((n + 1 : ℕ) : ℤ) - 1 = h + (n : ℤ) := by push_cast; ring
      have hunfold : scanDown p h (n + 1) (h + ((n + 1 : ℕ) : ℤ)) =
          if p (h + ((n + 1 : ℕ) : ℤ)) then h + ((n + 1 : ℕ) : ℤ)
          else scanDown p h n (h + ((n + 1 : ℕ) : ℤ) - 1) := rfl
      rw [hcast] at hunfold
      by_cases hp : p (h + ((n + 1 : ℕ) : ℤ)) = true
      · have hval : scanDown p h (n + 1) (h + ((n + 1 : ℕ) : ℤ)) =
            h + ((n + 1 : ℕ) : ℤ) := by
          rw [hunfold, if_pos hp]
        refine ⟨Or.inr ⟨by rw [hval]; exact hp, by rw [hval]; push_cast; omega,
          le_of_eq hval⟩, ?_⟩
        intro r h1 h2
        rw [hval] at h1
        exfalso; omega
      · have hval : scanDown p h (n + 1) (h + ((n + 1 : ℕ) : ℤ)) =
            scanDown p h n (h + (n : ℤ)) := by
          rw [hunfold, if_neg hp]
        refine ⟨?_, ?_⟩
        · rw [hval]
          rcases ih.1 with h0 | ⟨h1, h2, h3⟩
          · exact Or.inl h0
          · exact Or.inr ⟨h1, h2, by push_cast at h3 ⊢; omega⟩
        · intro r h1 h2
          rw [hval] at h1
          by_cases hr : r ≤ h + (n : ℤ)
          · exact ih.2 r h1 hr
          · have : r = h + ((n + 1 : ℕ) : ℤ) := by push_cast at h2 hr ⊢; omega
            rw [this]
            exact eq_false_of_ne_true hp

/-- Characterisation of the bottom-up scan: the detected row is either the
header row, or a populated row in `(header_row, max_row]`; and every row
strictly above the detected row (up to `max_row`) is unpopulated. -/
lemma detect_char (ws : Sheet) (h : ℤ) (e : ℚ) :
    ((detect_last_populated_row ws h e).last_populated_row = h ∨
      (rowPopulated ws (detect_last_populated_row ws h e).last_populated_row
          = true ∧
        h < (detect_last_populated_row ws h e).last_populated_row ∧
        (detect_last_populated_row ws h e).last_populated_row ≤
          (ws.max_row : ℤ))) ∧
    ∀ r : ℤ, (detect_last_populated_row ws h e).last_populated_row < r →
      r ≤ (ws.max_row : ℤ) → rowPopulated ws r = false := by
  have hval : (detect_last_populated_row ws h e).last_populated_row =
      scanDown (fun r => rowPopulated ws r) h
        ((ws.max_row : ℤ) - h).toNat (ws.max_row : ℤ) := rfl
  by_cases hM : h < (ws.max_row : ℤ)
  · have hn : (((ws.max_row : ℤ) - h).toNat : ℤ) = (ws.max_row : ℤ) - h :=
      Int.toNat_of_nonneg (by omega)
    have hM' : h + ((((ws.max_row : ℤ) - h).toNat : ℕ) : ℤ) = (ws.max_row : ℤ) := by
      omega
    have hspec := scanDown_spec (fun r => rowPopulated ws r) h
      ((ws.max_row : ℤ) - h).toNat
    rw [hM'] at hspec
    rw [hval]
    exact hspec
  · have hn : ((ws.max_row : ℤ) - h).toNat = 0 := by omega
    have hlast : (detect_last_populated_row ws h e).last_populated_row = h := by
      rw [hval, hn]
      rfl
    refine ⟨Or.inl hlast, ?_⟩
    intro r h1 h2
    rw [hlast] at h1
    exfalso; omega

/-- Claim C1: the scan starts at the sheet's reported last row, walks upward
one row at a time, and stops at the first populated row — so when some row in
`(header_row, max_row]` is populated, the reported last populated row is a
populated row in that range with no populated row above it; when no such row
exists, the reported last populated row is the header row. -/
theorem spec_C1 (ws : Sheet) (h : ℤ) (e : ℚ) :
    ((∃ r : ℤ, h < r ∧ r ≤ (ws.max_row : ℤ) ∧ rowPopulated ws r = true) →
      (h < (detect_last_populated_row ws h e).last_populated_row ∧
        (detect_last_populated_row ws h e).last_populated_row ≤
          (ws.max_row : ℤ) ∧
        rowPopulated ws (detect_last_populated_row ws h e).last_populated_row
          = true ∧
        ∀ r : ℤ, (detect_last_populated_row ws h e).last_populated_row < r →
          r ≤ (ws.max_row : ℤ) → rowPopulated ws r = false)) ∧
    ((∀ r : ℤ, h < r → r ≤ (ws.max_row : ℤ) → rowPopulated ws r = false) →
      (detect_last_populated_row ws h e).last_populated_row = h) := by
  obtain ⟨hchar, habove⟩ := detect_char ws h e
  constructor
  · rintro ⟨r, hr1, hr2, hr3⟩
    rcases hchar with heq | ⟨hp, hlt, hle⟩
    · exfalso
      have := habove r (by omega) hr2
      rw [this] at hr3
      exact Bool.false_ne_true hr3
    · exact ⟨hlt, hle, hp, habove⟩
  · intro hempty
    rcases hchar with heq | ⟨hp, hlt, hle⟩
    · exact heq
    · exfalso
      have := hempty _ hlt hle
      rw [this] at hp
      exact Bool.false_ne_true hp

theorem spec_C1_witness :
    1 < (detect_last_populated_row wsDemo 1 0).last_populated_row ∧
    rowPopulated wsDemo
      (detect_last_populated_row wsDemo 1 0).last_populated_row = true := by
  obtain ⟨h1, h2, h3, h4⟩ :=
    (spec_C1 wsDemo 1 0).1 ⟨3, by decide, by decide, by decide⟩
  exact ⟨h1, h3⟩

lemma notInBlank_iff (v : CellValue) :
    (!inBlankTuple v) = true ↔
      (v ≠ CellValue.none ∧ v ≠ CellValue.str "" ∧ v ≠ CellValue.str " ") := by
  cases v with
  | none => simp [inBlankTuple]
  | str s =>
      simp only [inBlankTuple, Bool.not_eq_true', Bool.or_eq_false_iff,
        beq_eq_false_iff_ne, ne_eq]
      constructor
      · rintro ⟨h1, h2⟩
        refine ⟨by simp, ?_, ?_⟩ <;> simp_all
      · rintro ⟨h1, h2, h3⟩
        exact ⟨by simp_all, by simp_all⟩
  | num q => simp [inBlankTuple]

/-- Claim C2 counterexample: in the sheet `wsTab`, every cell of row 2 is
empty-or-whitespace (a lone tab), yet the code's populated test accepts the
row — refuting "a row whose every cell is empty or consists only of
whitespace characters (of any length, including tabs) does not count as
populated". -/
theorem spec_C2_counterexample :
    (rowValues wsTab 2).all cellBlankSpec = true ∧
      rowPopulated wsTab 2 = true := by decide

/-- Claim C2 (amended): a row counts as populated iff some cell in columns
`1..max_col` holds a value other than `None`, the empty string `""`, or the
one-character string `" "`; whitespace strings other than a single space
(tabs, double spaces, …) do count as populated. -/
theorem spec_C2_amended (ws : Sheet) (r : ℤ) :
    rowPopulated ws r = true ↔
      ∃ c : ℕ, 1 ≤ c ∧ c ≤ ws.max_col ∧
        ws.cell r c ≠ CellValue.none ∧ ws.cell r c ≠ CellValue.str "" ∧
        ws.cell r c ≠ CellValue.str " " := by
  simp only [rowPopulated, rowValues, List.any_eq_true, List.mem_map,
    List.mem_range]
  constructor
  · rintro ⟨v, ⟨c, hc, rfl⟩, hv⟩
    exact ⟨c + 1, by omega, by omega, (notInBlank_iff _).mp hv⟩
  · rintro ⟨c, hc1, hc2, hv⟩
    exact ⟨ws.cell r c, ⟨c - 1, by omega, by rw [Nat.sub_add_cancel hc1]⟩,
      (notInBlank_iff _).mpr hv⟩

/-- Claim C3: the real row count is the last populated row minus the header
row, floored at zero; and for a sheet with no populated row above the header
the last populated row is the header row and the real row count is `0`. -/
theorem spec_C3 (ws : Sheet) (h : ℤ) (e : ℚ) :
    (detect_last_populated_row ws h e).real_row_count =
      max 0 ((detect_last_populated_row ws h e).last_populated_row - h) ∧
    ((∀ r : ℤ, h < r → r ≤ (ws.max_row : ℤ) → rowPopulated ws r = false) →
      (detect_last_populated_row ws h e).last_populated_row = h ∧
      (detect_last_populated_row ws h e).real_row_count = 0) := by
  refine ⟨rfl, ?_⟩
  intro hempty
  obtain ⟨hchar, _⟩ := detect_char ws h e
  have hlast : (detect_last_populated_row ws h e).last_populated_row = h := by
    rcases hchar with heq | ⟨hp, hlt, hle⟩
    · exact heq
    · exfalso
      have := hempty _ hlt hle
      rw [this] at hp
      exact Bool.false_ne_true hp
  refine ⟨hlast, ?_⟩
  have : (detect_last_populated_row ws h e).real_row_count =
      max 0 ((detect_last_populated_row ws h e).last_populated_row - h) := rfl
  rw [this, hlast]
  simp

theorem spec_C3_witness :
    (detect_last_populated_row emptyWs 1 0).last_populated_row = 1 ∧
    (detect_last_populated_row emptyWs 1 0).real_row_count = 0 :=
  (spec_C3 emptyWs 1 0).2 (fun _ _ _ => rfl)

/-- Claim C4: if the `N` rows above `max_row − N` are all blank and row
`max_row − N` itself is populated (with `header_row ≤ max_row − N`), the scan
detects `max_row − N` and reports `(max_row − N) − header_row` real rows; the
case `N = 0` is a sheet with data through its reported last row. -/
theorem spec_C4 (ws : Sheet) (h : ℤ) (e : ℚ) (N : ℕ)
    (h1 : h ≤ (ws.max_row : ℤ) - N)
    (h2 : ∀ r : ℤ, (ws.max_row : ℤ) - N < r → r ≤ (ws.max_row : ℤ) →
      rowPopulated ws r = false)
    (h3 : rowPopulated ws ((ws.max_row : ℤ) - N) = true) :
    (detect_last_populated_row ws h e).last_populated_row =
      (ws.max_row : ℤ) - N ∧
    (detect_last_populated_row ws h e).real_row_count =
      ((ws.max_row : ℤ) - N) - h := by
  obtain ⟨hchar, habove⟩ := detect_char ws h e
  have hge : h ≤ (detect_last_populated_row ws h e).last_populated_row := by
    rcases hchar with heq | ⟨_, hlt, _⟩
    · omega
    · omega
  have hle : (detect_last_populated_row ws h e).last_populated_row ≤
      (ws.max_row : ℤ) - N := by
    by_contra hcon
    push_neg at hcon
    rcases hchar with heq | ⟨hp, hlt, hle'⟩
    · omega
    · have := h2 _ (by omega) hle'
      rw [this] at hp
      exact Bool.false_ne_true hp
  have hgeN : (ws.max_row : ℤ) - N ≤
      (detect_last_populated_row ws h e).last_populated_row := by
    by_contra hcon
    push_neg at hcon
    have hmono : ((ws.max_row : ℤ) - N) ≤ (ws.max_row : ℤ) := by
      have : (0 : ℤ) ≤ N := Int.natCast_nonneg N
      omega
    have := habove _ hcon hmono
    rw [this] at h3
    exact Bool.false_ne_true h3
  have hlast : (detect_last_populated_row ws h e).last_populated_row =
      (ws.max_row : ℤ) - N := le_antisymm hle hgeN
  refine ⟨hlast, ?_⟩
  have hrc : (detect_last_populated_row ws h e).real_row_count =
      max 0 ((detect_last_populated_row ws h e).last_populated_row - h) := rfl
  rw [hrc, hlast]
  omega

theorem spec_C4_witness :
    (detect_last_populated_row wsDemo 1 0).last_populated_row =
      (wsDemo.max_row : ℤ) - (2 : ℕ) ∧
    (detect_last_populated_row wsDemo 1 0).real_row_count =
      ((wsDemo.max_row : ℤ) - (2 : ℕ)) - 1 :=
  spec_C4 wsDemo 1 0 2 (by decide)
    (by
      intro r hr1 hr2
      have hr1' : (3 : ℤ) < r := by exact_mod_cast hr1
      have hr2' : r ≤ (5 : ℤ) := by exact_mod_cast hr2
      interval_cases r <;> decide)
    (by decide)

/-- Claim C8 (implicit invariant): the detected last populated row always lies
between the header row and `max header_row max_row`, so the real row count is
exactly `last_populated_row − header_row` and the floor at zero never decides. -/
theorem spec_C8 (ws : Sheet) (h : ℤ) (e : ℚ) :
    h ≤ (detect_last_populated_row ws h e).last_populated_row ∧
    (detect_last_populated_row ws h e).last_populated_row ≤
      max h (ws.max_row : ℤ) ∧
    (detect_last_populated_row ws h e).real_row_count =
      (detect_last_populated_row ws h e).last_populated_row - h := by
  obtain ⟨hchar, _⟩ := detect_char ws h e
  have hge : h ≤ (detect_last_populated_row ws h e).last_populated_row := by
    rcases hchar with heq | ⟨_, hlt, _⟩ <;> omega
  have hle : (detect_last_populated_row ws h e).last_populated_row ≤
      max h (ws.max_row : ℤ) := by
    rcases hchar with heq | ⟨_, _, hle'⟩
    · omega
    · exact le_max_of_le_right hle'
  have hrc : (detect_last_populated_row ws h e).real_row_count =
      max 0 ((detect_last_populated_row ws h e).last_populated_row - h) := rfl
  exact ⟨hge, hle, by rw [hrc]; omega⟩

lemma nameIndex_cons_self (n : String) (rest : List String) :
    nameIndex (n :: rest) n = 0 := by
  simp [nameIndex]

lemma nameIndex_cons_ne (n s : String) (rest : List String) (h : n ≠ s) :
    nameIndex (n :: rest) s = nameIndex rest s + 1 := by
  simp [nameIndex, h]

lemma nameIndex_pairwise (names : List String) (hnd : names.Nodup) :
    List.Pairwise (fun a b => nameIndex names a < nameIndex names b) names := by
  induction names with
  | nil => exact List.Pairwise.nil
  | cons x rest ih =>
      rw [List.nodup_cons] at hnd
      rw [List.pairwise_cons]
      constructor
      · intro b hb
        have hxb : x ≠ b := fun he => hnd.1 (he ▸ hb)
        rw [nameIndex_cons_self, nameIndex_cons_ne x b rest hxb]
        omega
      · have hrest := ih hnd.2
        refine hrest.imp_of_mem ?_
        intro a b ha hb hlt
        have hxa : x ≠ a := fun he => hnd.1 (he ▸ ha)
        have hxb : x ≠ b := fun he => hnd.1 (he ▸ hb)
        rw [nameIndex_cons_ne x a rest hxa, nameIndex_cons_ne x b rest hxb]
        omega

/-- Sorting any permutation of a list whose keys are strictly increasing, by
non-strict key order, recovers the list. -/
lemma insertionSort_key_eq {α : Type} (k : α → ℕ)
    (canonical completion : List α) (hperm : completion.Perm canonical)
    (hsorted : List.Pairwise (fun a b => k a < k b) canonical) :
    List.insertionSort (fun a b => k a ≤ k b) completion = canonical := by
  haveI : IsAntisymm α (fun a b => k a < k b) :=
    ⟨fun a b h1 h2 => absurd (h1.trans h2) (lt_irrefl _)⟩
  haveI : IsTotal α (fun a b => k a ≤ k b) :=
    ⟨fun a b => Nat.le_total (k a) (k b)⟩
  haveI : IsTrans α (fun a b => k a ≤ k b) :=
    ⟨fun a b c h1 h2 => Nat.le_trans h1 h2⟩
  have hperm2 :
      (List.insertionSort (fun a b => k a ≤ k b) completion).Perm canonical :=
    (List.perm_insertionSort _ completion).trans hperm
  have hsle : List.Sorted (fun a b => k a ≤ k b)
      (List.insertionSort (fun a b => k a ≤ k b) completion) :=
    List.sorted_insertionSort _ _
  have hcanon_nodup : (canonical.map k).Nodup :=
    List.pairwise_map.mpr (hsorted.imp (fun h => Nat.ne_of_lt h))
  have hkey_nodup :
      ((List.insertionSort (fun a b => k a ≤ k b) completion).map k).Nodup :=
    ((hperm2.map k).nodup_iff).mpr hcanon_nodup
  have hne : List.Pairwise (fun a b => k a ≠ k b)
      (List.insertionSort (fun a b => k a ≤ k b) completion) :=
    List.pairwise_map.mp hkey_nodup
  have hslt : List.Sorted (fun a b => k a < k b)
      (List.insertionSort (fun a b => k a ≤ k b) completion) :=
    (hsle.and hne).imp (fun h => lt_of_le_of_ne h.1 h.2)
  exact List.eq_of_perm_of_sorted hperm2 hslt hsorted

/-- Whatever order the pool tasks complete in, the re-sort recovers the
workbook's sheet order. -/
lemma analyze_workbook_eq (sheets : List Sheet) (elapsed : String → ℚ)
    (completion : List ScanResult)
    (hnd : (sheets.map Sheet.name).Nodup)
    (hperm : completion.Perm (sheets.map (scanOne elapsed))) :
    analyze_workbook sheets completion = sheets.map (scanOne elapsed) := by
  have hpair : List.Pairwise
      (fun a b => sheetOrderKey (sheets.map Sheet.name) a <
        sheetOrderKey (sheets.map Sheet.name) b)
      (sheets.map (scanOne elapsed)) := by
    rw [List.pairwise_map]
    have hnames := nameIndex_pairwise (sheets.map Sheet.name) hnd
    rw [List.pairwise_map] at hnames
    exact hnames.imp (fun h => h)
  exact insertionSort_key_eq _ _ _ hperm hpair

/-- Claim C5: for every workbook and every completion order of the per-sheet
tasks (any permutation of the collected results), `analyze_workbook` returns
the ScanResults in the workbook's original sheet order. -/
theorem spec_C5 (sheets : List Sheet) (elapsed : String → ℚ)
    (completion : List ScanResult)
    (hnd : (sheets.map Sheet.name).Nodup)
    (hperm : completion.Perm (sheets.map (scanOne elapsed))) :
    analyze_workbook sheets completion = sheets.map (scanOne elapsed) :=
  analyze_workbook_eq sheets elapsed completion hnd hperm

theorem spec_C5_witness :
    analyze_workbook [wsA, wsB]
        [scanOne elapsedZero wsB, scanOne elapsedZero wsA] =
      [scanOne elapsedZero wsA, scanOne elapsedZero wsB] :=
  spec_C5 [wsA, wsB] elapsedZero _ (by decide) (List.Perm.swap _ _ _)

lemma collect_ok_iff {ε : Type} (completion : List (Except ε ScanResult)) :
    (∃ rs, collect_results completion = .ok rs) ↔
      ∀ x ∈ completion, ∃ r, x = .ok r := by
  induction completion with
  | nil => simp [collect_results]
  | cons x rest ih =>
      cases x with
      | error e =>
          constructor
          · rintro ⟨rs, hrs⟩
            exact absurd hrs (by simp [collect_results])
          · intro hall
            obtain ⟨r, hr⟩ := hall (.error e) (List.mem_cons_self _ _)
            exact absurd hr (by simp)
      | ok r =>
          have hdef : collect_results (Except.ok r :: rest) =
              Except.map (fun l => r :: l) (collect_results rest) := rfl
          constructor
          · rintro ⟨rs, hrs⟩
            intro x hx
            rcases List.mem_cons.mp hx with rfl | hx'
            · exact ⟨r, rfl⟩
            · refine ih.mp ?_ x hx'
              rw [hdef] at hrs
              cases hc : collect_results rest with
              | error e =>
                  rw [hc] at hrs
                  exact absurd hrs (by simp [Except.map])
              | ok rs' => exact ⟨rs', rfl⟩
          · intro hall
            obtain ⟨rs, hrs⟩ :=
              ih.mpr (fun x hx => hall x (List.mem_cons_of_mem _ hx))
            exact ⟨r :: rs, by rw [hdef, hrs]; rfl⟩

lemma collect_error_mem {ε : Type} (completion : List (Except ε ScanResult))
    (e : ε) (h : collect_results completion = .error e) :
    Except.error e ∈ completion := by
  induction completion with
  | nil => exact absurd h (by simp [collect_results])
  | cons x rest ih =>
      cases x with
      | error e' =>
          have hdef : collect_results (Except.error e' :: rest) =
              (Except.error e' : Except ε (List ScanResult)) := rfl
          rw [hdef] at h
          have he : e' = e := by simpa using h
          rw [← he]
          exact List.mem_cons_self _ _
      | ok r =>
          have hdef : collect_results (Except.ok r :: rest) =
              Except.map (fun l => r :: l) (collect_results rest) := rfl
          rw [hdef] at h
          cases hc : collect_results rest with
          | error e'' =>
              rw [hc] at h
              have he : e'' = e := by simpa [Except.map] using h
              rw [he] at hc
              exact List.mem_cons_of_mem _ (ih hc)
          | ok rs =>
              rw [hc] at h
              exact absurd h (by simp [Except.map])

/-- Claim C7: the report is produced iff every per-sheet task succeeded, and
when the run aborts it aborts with an exception raised by one of the tasks. -/
theorem spec_C7 {ε : Type} (sheets : List Sheet)
    (completion : List (Except ε ScanResult)) :
    ((∃ s, run_main sheets completion = .ok s) ↔
      ∀ x ∈ completion, ∃ r, x = .ok r) ∧
    ∀ e, run_main sheets completion = .error e →
      Except.error e ∈ completion := by
  constructor
  · rw [← collect_ok_iff]
    constructor
    · rintro ⟨s, hs⟩
      unfold run_main at hs
      cases hc : collect_results completion with
      | error e =>
          rw [hc] at hs
          exact absurd hs (by simp)
      | ok rs => exact ⟨rs, rfl⟩
    · rintro ⟨rs, hrs⟩
      exact ⟨_, by unfold run_main; rw [hrs]⟩
  · intro e he
    apply collect_error_mem completion e
    unfold run_main at he
    cases hc : collect_results completion with
    | error e' =>
        rw [hc] at he
        have : e' = e := by simpa using he
        rw [this]
    | ok rs =>
        rw [hc] at he
        exact absurd he (by simp)

theorem spec_C7_witness :
    (¬ ∃ s, run_main (ε := String) [wsA] cw7 = .ok s) ∧
      Except.error "boom" ∈ cw7 := by
  have h := spec_C7 (ε := String) [wsA] cw7
  constructor
  · intro hok
    obtain ⟨r, hr⟩ := (h.1.mp hok) (Except.error "boom") (by simp [cw7])
    exact Except.noConfusion hr
  · exact h.2 "boom" rfl

lemma prefix_append_iff_of_le {pat fixed rest : List Char}
    (h : pat.length ≤ fixed.length) :
    pat <+: (fixed ++ rest) ↔ pat <+: fixed := by
  rw [List.prefix_iff_eq_take, List.prefix_iff_eq_take,
    List.take_append_eq_append_take, Nat.sub_eq_zero_of_le h, List.take_zero,
    List.append_nil]

lemma isPrefixOf_append_of_le (pat fixed rest : List Char)
    (h : pat.length ≤ fixed.length) :
    pat.isPrefixOf (fixed ++ rest) = pat.isPrefixOf fixed := by
  rw [Bool.eq_iff_iff, List.isPrefixOf_iff_prefix, List.isPrefixOf_iff_prefix]
  exact prefix_append_iff_of_le h

lemma removeElapsed_sheetLines (r : ScanResult) :
    removeElapsedLines (sheetLines r) = sheetLinesNoElapsed r := by
  unfold removeElapsedLines sheetLines sheetLinesNoElapsed
  simp only [List.filter_cons, List.filter_nil]
  rw [isPrefixOf_append_of_le elapsedPat ("## Sheet: **".data) _ (by decide),
    isPrefixOf_append_of_le elapsedPat ("- Header row: **".data) _ (by decide),
    isPrefixOf_append_of_le elapsedPat ("- Excel max_row: **".data) _
      (by decide),
    isPrefixOf_append_of_le elapsedPat ("- Last populated row: **".data) _
      (by decide),
    isPrefixOf_append_of_le elapsedPat ("- Real row count: **".data) _
      (by decide),
    isPrefixOf_append_of_le elapsedPat ("- Elapsed: ".data) _ (by decide)]
  have h1 : elapsedPat.isPrefixOf ("## Sheet: **".data) = false := by decide
  have h2 : elapsedPat.isPrefixOf ("- Header row: **".data) = false := by
    decide
  have h3 : elapsedPat.isPrefixOf ("- Excel max_row: **".data) = false := by
    decide
  have h4 : elapsedPat.isPrefixOf ("- Last populated row: **".data) = false :=
    by decide
  have h5 : elapsedPat.isPrefixOf ("- Real row count: **".data) = false := by
    decide
  have h6 : elapsedPat.isPrefixOf ("- Elapsed: ".data) = true := by decide
  have h7 : elapsedPat.isPrefixOf ([] : List Char) = false := by decide
  rw [h1, h2, h3, h4, h5, h6, h7]
  simp

lemma removeElapsed_append (a b : List (List Char)) :
    removeElapsedLines (a ++ b) =
      removeElapsedLines a ++ removeElapsedLines b :=
  List.filter_append _ _

lemma removeElapsed_run (elapsed : String → ℚ) (l : List Sheet) :
    removeElapsedLines ((l.map (scanOne elapsed)).flatMap sheetLines) =
      l.flatMap (fun w => sheetLinesNoElapsed (scanOne (fun _ => 0) w)) := by
  induction l with
  | nil => rfl
  | cons w rest ih =>
      rw [List.map_cons, List.flatMap_cons, List.flatMap_cons,
        removeElapsed_append, removeElapsed_sheetLines, ih]
      rfl

set_option maxRecDepth 100000 in
/-- Claim C6 counterexample: two full pipeline runs on the same one-sheet
workbook, in which the measured per-task times differ (0 s vs 1 s), produce
different report bytes — the Elapsed line embeds the wall clock, so reruns
are not byte-identical. -/
theorem spec_C6_counterexample :
    write_report (analyze_workbook [wsA] [scanOne elapsedZero wsA]) ≠
      write_report (analyze_workbook [wsA] [scanOne elapsedOne wsA]) := by
  decide

/-- Claim C6 (amended): two runs of the pipeline on the same workbook produce
reports that are identical apart from the per-sheet Elapsed lines; they are
byte-identical whenever the measured elapsed times coincide. -/
theorem spec_C6_amended (sheets : List Sheet) (e1 e2 : String → ℚ)
    (c1 c2 : List ScanResult)
    (hnd : (sheets.map Sheet.name).Nodup)
    (h1 : c1.Perm (sheets.map (scanOne e1)))
    (h2 : c2.Perm (sheets.map (scanOne e2))) :
    removeElapsedLines (report_lines (analyze_workbook sheets c1)) =
      removeElapsedLines (report_lines (analyze_workbook sheets c2)) ∧
    (e1 = e2 →
      write_report (analyze_workbook sheets c1) =
        write_report (analyze_workbook sheets c2)) := by
  rw [analyze_workbook_eq sheets e1 c1 hnd h1,
    analyze_workbook_eq sheets e2 c2 hnd h2]
  constructor
  · unfold report_lines removeElapsedLines
    rw [List.filter_cons, List.filter_cons]
    have ht : elapsedPat.isPrefixOf titleLine = false := by decide
    rw [ht]
    have hrun1 := removeElapsed_run e1 sheets
    have hrun2 := removeElapsed_run e2 sheets
    unfold removeElapsedLines at hrun1 hrun2
    rw [hrun1, hrun2]
  · intro he
    rw [he]

theorem spec_C6_witness :
    removeElapsedLines
        (report_lines (analyze_workbook [wsA] [scanOne elapsedZero wsA])) =
      removeElapsedLines
        (report_lines (analyze_workbook [wsA] [scanOne elapsedOne wsA])) :=
  (spec_C6_amended [wsA] elapsedZero elapsedOne _ _ (by decide)
    (List.Perm.refl _) (List.Perm.refl _)).1

lemma pyIsSpace_space : pyIsSpace ' ' = true := by decide

lemma pyIsSpace_tab : pyIsSpace '\t' = true := by decide

lemma pyIsSpace_nl : pyIsSpace '\n' = true := by decide

lemma head_dropWhile_false {l : List Char} {c : Char}
    (h : (l.dropWhile pyIsSpace).head? = some c) : pyIsSpace c = false := by
  induction l with
  | nil => simp [List.dropWhile] at h
  | cons a t ih =>
      rw [List.dropWhile_cons] at h
      by_cases hp : pyIsSpace a = true
      · rw [if_pos hp] at h
        exact ih h
      · rw [if_neg hp] at h
        have ha : a = c := by simpa using h
        rw [← ha]
        cases hb : pyIsSpace a with
        | true => exact absurd hb hp
        | false => rfl

lemma strip_head_false {l : List Char} {c : Char}
    (h : (stripChars l).head? = some c) : pyIsSpace c = false := by
  unfold stripChars at h
  obtain ⟨u, hu⟩ :=
    List.rdropWhile_prefix pyIsSpace (List.dropWhile pyIsSpace l)
  cases hx : List.rdropWhile pyIsSpace (List.dropWhile pyIsSpace l) with
  | nil =>
      rw [hx] at h
      simp at h
  | cons d t =>
      rw [hx] at h
      have hd : d = c := by simpa using h
      apply head_dropWhile_false (l := l)
      rw [← hu, hx, hd]
      rfl

lemma strip_last_false {l : List Char} {c : Char}
    (h : (stripChars l).getLast? = some c) : pyIsSpace c = false := by
  unfold stripChars at h
  by_cases hne : List.rdropWhile pyIsSpace (List.dropWhile pyIsSpace l) = []
  · rw [hne] at h
    simp at h
  · have hlast :=
      List.rdropWhile_last_not pyIsSpace (List.dropWhile pyIsSpace l) hne
    rw [List.getLast?_eq_getLast _ hne] at h
    have hc : List.getLast _ hne = c := by simpa using h
    rw [← hc]
    cases hb : pyIsSpace (List.getLast _ hne) with
    | true => exact absurd hb hlast
    | false => rfl

lemma replace_pyIsSpace (a : Char) (ha : pyIsSpace a = true) (c : Char) :
    pyIsSpace (if c = a then ' ' else c) = pyIsSpace c := by
  by_cases h : c = a
  · rw [if_pos h, h, ha, pyIsSpace_space]
  · rw [if_neg h]

lemma replace_head_false (a : Char) (ha : pyIsSpace a = true)
    {l : List Char} {c : Char}
    (hl : ∀ d, l.head? = some d → pyIsSpace d = false)
    (h : (replaceChar a l).head? = some c) : pyIsSpace c = false := by
  unfold replaceChar at h
  rw [List.head?_map] at h
  cases hh : l.head? with
  | none =>
      rw [hh] at h
      simp at h
  | some d =>
      rw [hh] at h
      have hc : (if d = a then ' ' else d) = c := by simpa using h
      rw [← hc, replace_pyIsSpace a ha d]
      exact hl d hh

lemma replace_last_false (a : Char) (ha : pyIsSpace a = true)
    {l : List Char} {c : Char}
    (hl : ∀ d, l.getLast? = some d → pyIsSpace d = false)
    (h : (replaceChar a l).getLast? = some c) : pyIsSpace c = false := by
  unfold replaceChar at h
  rw [List.getLast?_map] at h
  cases hh : l.getLast? with
  | none =>
      rw [hh] at h
      simp at h
  | some d =>
      rw [hh] at h
      have hc : (if d = a then ' ' else d) = c := by simpa using h
      rw [← hc, replace_pyIsSpace a ha d]
      exact hl d hh

lemma getLast?_cons_of_ne {α : Type} (a : α) {t : List α} (h : t ≠ []) :
    (a :: t).getLast? = t.getLast? := by
  rw [List.getLast?_cons, List.getLast?_eq_getLast t h]
  rfl

set_option maxHeartbeats 1000000 in
lemma collapseWs_nil : collapseWs [] = [] := by
  rw [collapseWs]

lemma collapseWs_cons_pos {c : Char} {rest : List Char}
    (hp : pyIsSpace c = true) :
    collapseWs (c :: rest) = ' ' :: collapseWs (rest.dropWhile pyIsSpace) := by
  rw [collapseWs, if_pos hp]

lemma collapseWs_cons_neg {c : Char} {rest : List Char}
    (hp : ¬ pyIsSpace c = true) :
    collapseWs (c :: rest) = c :: collapseWs rest := by
  rw [collapseWs, if_neg hp]

lemma collapseWs_ne_nil {l : List Char} (h : l ≠ []) : collapseWs l ≠ [] := by
  cases l with
  | nil => exact absurd rfl h
  | cons c rest =>
      by_cases hp : pyIsSpace c = true
      · rw [collapseWs_cons_pos hp]
        simp
      · rw [collapseWs_cons_neg hp]
        simp

lemma collapseWs_head {l : List Char} {c : Char} (hc : l.head? = some c)
    (hns : pyIsSpace c = false) : (collapseWs l).head? = some c := by
  cases l with
  | nil => simp at hc
  | cons a rest =>
      have ha : a = c := by simpa using hc
      subst ha
      rw [collapseWs_cons_neg (by rw [hns]; simp)]
      rfl

lemma collapseWs_spaces (l : List Char) :
    ∀ c ∈ collapseWs l, pyIsSpace c = true → c = ' ' := by
  induction l using collapseWs.induct with
  | case1 =>
      intro c hc
      rw [collapseWs_nil] at hc
      simp at hc
  | case2 a rest hp ih =>
      intro c hc hsp
      rw [collapseWs_cons_pos hp] at hc
      rcases List.mem_cons.mp hc with rfl | hc'
      · rfl
      · exact ih c hc' hsp
  | case3 a rest hp ih =>
      intro c hc hsp
      rw [collapseWs_cons_neg hp] at hc
      rcases List.mem_cons.mp hc with rfl | hc'
      · cases hb : pyIsSpace c with
        | true => exact absurd hb hp
        | false => rw [hb] at hsp; exact absurd hsp (by simp)
      · exact ih c hc' hsp

lemma collapseWs_chain (l : List Char) :
    List.Chain' (fun a b => ¬(pyIsSpace a = true ∧ pyIsSpace b = true))
      (collapseWs l) := by
  induction l using collapseWs.induct with
  | case1 =>
      rw [collapseWs_nil]
      exact List.chain'_nil
  | case2 a rest hp ih =>
      rw [collapseWs_cons_pos hp]
      rw [List.chain'_cons']
      refine ⟨?_, ih⟩
      intro y hy
      cases hd : (rest.dropWhile pyIsSpace).head? with
      | none =>
          cases hdd : rest.dropWhile pyIsSpace with
          | nil =>
              rw [hdd, collapseWs_nil] at hy
              simp at hy
          | cons d t =>
              rw [hdd] at hd
              simp at hd
      | some d =>
          have hdns : pyIsSpace d = false := head_dropWhile_false hd
          have := collapseWs_head hd hdns
          rw [this] at hy
          have hyd : d = y := by simpa using hy
          rw [← hyd]
          intro hcon
          rw [hdns] at hcon
          exact absurd hcon.2 (by simp)
  | case3 a rest hp ih =>
      rw [collapseWs_cons_neg hp]
      rw [List.chain'_cons']
      refine ⟨?_, ih⟩
      intro y hy
      intro hcon
      exact hp hcon.1

lemma collapseWs_last (l : List Char) :
    (∀ c, l.getLast? = some c → pyIsSpace c = false) →
    ∀ c, (collapseWs l).getLast? = some c → pyIsSpace c = false := by
  induction l using collapseWs.induct with
  | case1 =>
      intro _ c hc
      rw [collapseWs_nil] at hc
      simp at hc
  | case2 a rest hp ih =>
      intro hl c hc
      have hrest_ne : rest ≠ [] := by
        rintro rfl
        have := hl a (by simp)
        rw [hp] at this
        exact absurd this (by simp)
      have hdrop_ne : rest.dropWhile pyIsSpace ≠ [] := by
        intro hnil
        rw [List.dropWhile_eq_nil_iff] at hnil
        have hmem : rest.getLast hrest_ne ∈ rest := List.getLast_mem hrest_ne
        have hsp := hnil _ hmem
        have hfalse := hl (rest.getLast hrest_ne) ?_
        · rw [hsp] at hfalse
          exact absurd hfalse (by simp)
        · rw [getLast?_cons_of_ne a hrest_ne]
          exact List.getLast?_eq_getLast rest hrest_ne
      have hcoll_ne : collapseWs (rest.dropWhile pyIsSpace) ≠ [] :=
        collapseWs_ne_nil hdrop_ne
      rw [collapseWs_cons_pos hp] at hc
      rw [getLast?_cons_of_ne _ hcoll_ne] at hc
      refine ih ?_ c hc
      intro d hd
      obtain ⟨u, hu⟩ := List.dropWhile_suffix (l := rest) pyIsSpace
      have hrd : rest.getLast? = some d := by
        rw [← hu, List.getLast?_append_of_ne_nil _ hdrop_ne]
        exact hd
      apply hl d
      rw [getLast?_cons_of_ne a hrest_ne]
      exact hrd
  | case3 a rest hp ih =>
      intro hl c hc
      rw [collapseWs_cons_neg hp] at hc
      by_cases hrest : rest = []
      · subst hrest
        have hac : a = c := by
          rw [collapseWs_nil] at hc
          simpa using hc
        rw [← hac]
        cases hb : pyIsSpace a with
        | true => exact absurd hb hp
        | false => rfl
      · have hcoll_ne : collapseWs rest ≠ [] := collapseWs_ne_nil hrest
        rw [getLast?_cons_of_ne a hcoll_ne] at hc
        refine ih ?_ c hc
        intro d hd
        apply hl d
        rw [getLast?_cons_of_ne a hrest]
        exact hd

lemma collapseWs_eq_self (l : List Char) :
    (∀ c ∈ l, pyIsSpace c = true → c = ' ') →
    List.Chain' (fun a b => ¬(pyIsSpace a = true ∧ pyIsSpace b = true)) l →
    collapseWs l = l := by
  induction l using collapseWs.induct with
  | case1 =>
      intro _ _
      exact collapseWs_nil
  | case2 a rest hp ih =>
      intro h1 h2
      have ha : a = ' ' := h1 a (List.mem_cons_self _ _) hp
      have hdrop : rest.dropWhile pyIsSpace = rest := by
        cases rest with
        | nil => rfl
        | cons d t =>
            have hrel := (List.chain'_cons'.mp h2).1 d (by simp)
            have hdns : pyIsSpace d = false := by
              cases hb : pyIsSpace d with
              | true => exact absurd ⟨hp, hb⟩ hrel
              | false => rfl
            rw [List.dropWhile_cons, hdns]
            simp
      rw [hdrop] at ih
      have hrec := ih (fun c hc hsp => h1 c (List.mem_cons_of_mem _ hc) hsp)
        h2.tail
      calc collapseWs (a :: rest)
          = ' ' :: collapseWs (rest.dropWhile pyIsSpace) :=
            collapseWs_cons_pos hp
        _ = ' ' :: collapseWs rest := by rw [hdrop]
        _ = ' ' :: rest := by rw [hrec]
        _ = a :: rest := by rw [ha]
  | case3 a rest hp ih =>
      intro h1 h2
      have hrec := ih (fun c hc hsp => h1 c (List.mem_cons_of_mem _ hc) hsp)
        h2.tail
      rw [collapseWs_cons_neg hp, hrec]

lemma stripChars_eq_self {l : List Char}
    (hh : ∀ c, l.head? = some c → pyIsSpace c = false)
    (hl : ∀ c, l.getLast? = some c → pyIsSpace c = false) :
    stripChars l = l := by
  unfold stripChars
  have hdrop : l.dropWhile pyIsSpace = l := by
    cases l with
    | nil => rfl
    | cons a t =>
        have := hh a rfl
        rw [List.dropWhile_cons, this]
        simp
  rw [hdrop, List.rdropWhile_eq_self_iff]
  intro hne
  have := hl (l.getLast hne) (List.getLast?_eq_getLast l hne)
  simp [this]

lemma replaceChar_eq_self {a : Char} {l : List Char} (h : a ∉ l) :
    replaceChar a l = l := by
  unfold replaceChar
  have hpt : ∀ c ∈ l, (if c = a then ' ' else c) = c := by
    intro c hc
    rw [if_neg (fun (he : c = a) => h (he ▸ hc))]
  rw [List.map_congr_left hpt, List.map_id']

lemma normalize_props (x : CellInput) :
    (∀ c ∈ normalize_cell x, pyIsSpace c = true → c = ' ') ∧
    List.Chain' (fun a b => ¬(pyIsSpace a = true ∧ pyIsSpace b = true))
      (normalize_cell x) ∧
    (∀ c, (normalize_cell x).head? = some c → pyIsSpace c = false) ∧
    (∀ c, (normalize_cell x).getLast? = some c → pyIsSpace c = false) := by
  cases x with
  | na =>
      refine ⟨?_, ?_, ?_, ?_⟩ <;> simp [normalize_cell]
  | val s =>
      have hn : normalize_cell (.val s) =
          collapseWs (replaceChar '\t' (replaceChar '\n' (stripChars s.data))) :=
        rfl
      have hmh : ∀ c,
          (replaceChar '\t' (replaceChar '\n' (stripChars s.data))).head? =
            some c → pyIsSpace c = false := by
        intro c hc
        refine replace_head_false '\t' pyIsSpace_tab ?_ hc
        intro d hd
        refine replace_head_false '\n' pyIsSpace_nl ?_ hd
        intro e he
        exact strip_head_false he
      have hml : ∀ c,
          (replaceChar '\t' (replaceChar '\n' (stripChars s.data))).getLast? =
            some c → pyIsSpace c = false := by
        intro c hc
        refine replace_last_false '\t' pyIsSpace_tab ?_ hc
        intro d hd
        refine replace_last_false '\n' pyIsSpace_nl ?_ hd
        intro e he
        exact strip_last_false he
      rw [hn]
      refine ⟨collapseWs_spaces _, collapseWs_chain _, ?_, collapseWs_last _ hml⟩
      intro c hc
      cases hmm : replaceChar '\t' (replaceChar '\n' (stripChars s.data)) with
      | nil =>
          rw [hmm] at hc
          simp [collapseWs] at hc
      | cons d t =>
          have hd : pyIsSpace d = false := hmh d (by rw [hmm]; rfl)
          have hhead := collapseWs_head (l := d :: t) (c := d) rfl hd
          rw [hmm] at hc
          rw [hhead] at hc
          have : d = c := by simpa using hc
          rw [← this]
          exact hd

/-- Claim C9: `normalize_cell` is idempotent, and its result contains no tab,
no newline, no leading or trailing whitespace, and no two adjacent spaces. -/
theorem spec_C9 (x : CellInput) :
    normalize_cell (.val (String.mk (normalize_cell x))) = normalize_cell x ∧
    '\t' ∉ normalize_cell x ∧
    '\n' ∉ normalize_cell x ∧
    (∀ c, (normalize_cell x).head? = some c → pyIsSpace c = false) ∧
    (∀ c, (normalize_cell x).getLast? = some c → pyIsSpace c = false) ∧
    List.Chain' (fun a b => ¬(a = ' ' ∧ b = ' ')) (normalize_cell x) := by
  obtain ⟨h1, h2, h3, h4⟩ := normalize_props x
  have htab : '\t' ∉ normalize_cell x := by
    intro hmem
    have := h1 '\t' hmem pyIsSpace_tab
    exact absurd this (by decide)
  have hnl : '\n' ∉ normalize_cell x := by
    intro hmem
    have := h1 '\n' hmem pyIsSpace_nl
    exact absurd this (by decide)
  refine ⟨?_, htab, hnl, h3, h4, ?_⟩
  · have hstep : normalize_cell (.val (String.mk (normalize_cell x))) =
        collapseWs (replaceChar '\t'
          (replaceChar '\n' (stripChars (normalize_cell x)))) := rfl
    rw [hstep, stripChars_eq_self h3 h4, replaceChar_eq_self hnl,
      replaceChar_eq_self htab]
    exact collapseWs_eq_self _ h1 h2
  · refine h2.imp ?_
    intro a b hab hcon
    exact hab ⟨hcon.1 ▸ pyIsSpace_space, hcon.2 ▸ pyIsSpace_space⟩

theorem spec_C9_witness :
    normalize_cell (CellInput.val (String.mk (normalize_cell xC9))) =
      normalize_cell xC9 ∧
    '\t' ∉ normalize_cell xC9 :=
  ⟨(spec_C9 xC9).1, (spec_C9 xC9).2.1⟩

lemma filter_orderedInsert_pos (q : DictRow → Bool)
    (hq : ∀ a b, q a = true → q b = true → rowLE a b)
    (x : DictRow) (l : List DictRow) (hx : q x = true) :
    (List.orderedInsert rowLE x l).filter q = x :: l.filter q := by
  induction l with
  | nil => simp [List.orderedInsert, hx]
  | cons y t ih =>
      by_cases hle : rowLE x y
      · simp only [List.orderedInsert, if_pos hle]
        simp [List.filter_cons, hx]
      · have hqy : q y = false := by
          cases hb : q y with
          | true => exact absurd (hq x y hx hb) hle
          | false => rfl
        simp only [List.orderedInsert, if_neg hle]
        simp [List.filter_cons, hqy, ih]

lemma filter_orderedInsert_neg (q : DictRow → Bool) (x : DictRow)
    (l : List DictRow) (hx : q x = false) :
    (List.orderedInsert rowLE x l).filter q = l.filter q := by
  induction l with
  | nil => simp [List.orderedInsert, hx]
  | cons y t ih =>
      by_cases hle : rowLE x y
      · simp only [List.orderedInsert, if_pos hle]
        simp [List.filter_cons, hx]
      · simp only [List.orderedInsert, if_neg hle]
        simp [List.filter_cons, ih]

lemma filter_insertionSort (q : DictRow → Bool)
    (hq : ∀ a b, q a = true → q b = true → rowLE a b) (l : List DictRow) :
    (List.insertionSort rowLE l).filter q = l.filter q := by
  induction l with
  | nil => rfl
  | cons x t ih =>
      have hdef : List.insertionSort rowLE (x :: t) =
          List.orderedInsert rowLE x (List.insertionSort rowLE t) := rfl
      rw [hdef]
      cases hx : q x with
      | true =>
          rw [filter_orderedInsert_pos q hq x _ hx, ih]
          simp [List.filter_cons, hx]
      | false =>
          rw [filter_orderedInsert_neg q x _ hx, ih]
          simp [List.filter_cons, hx]

/-- Claim C10: in the DataFrame returned by `build_dictionary`, the rows are
stably sorted by `(level1_code, level2_code)` — ordered by the key, and any
two rows with equal keys keep their input order (filtering by any key value
is unchanged by the sort) — and the `hepa_id` column is exactly `1, …, N`. -/
theorem spec_C10 (rows : List DictRow) :
    (assign_hepa_ids rows).map Prod.fst = List.range' 1 rows.length ∧
    List.Sorted rowLE ((assign_hepa_ids rows).map Prod.snd) ∧
    ∀ k1 k2 : String,
      ((assign_hepa_ids rows).map Prod.snd).filter
          (fun r => r.level1_code == k1 && r.level2_code == k2) =
        rows.filter (fun r => r.level1_code == k1 && r.level2_code == k2) := by
  have hsnd : (assign_hepa_ids rows).map Prod.snd =
      List.insertionSort rowLE rows := by
    unfold assign_hepa_ids
    rw [List.map_map]
    exact List.enum_map_snd _
  have hlen : (List.insertionSort rowLE rows).length = rows.length :=
    (List.perm_insertionSort rowLE rows).length_eq
  refine ⟨?_, ?_, ?_⟩
  · unfold assign_hepa_ids
    rw [List.map_map, List.range'_eq_map_range]
    have h1 : ((List.insertionSort rowLE rows).enum.map fun p => p.1 + 1) =
        ((List.insertionSort rowLE rows).enum.map Prod.fst).map
          (fun n => n + 1) := by
      rw [List.map_map]
      rfl
    show ((List.insertionSort rowLE rows).enum.map fun p => p.1 + 1) = _
    rw [h1, List.enum_map_fst, hlen]
    exact List.map_congr_left (fun n _ => by omega)
  · rw [hsnd]
    exact List.sorted_insertionSort rowLE rows
  · intro k1 k2
    rw [hsnd]
    apply filter_insertionSort
    intro a b ha hb
    rw [Bool.and_eq_true] at ha hb
    obtain ⟨ha1, ha2⟩ := ha
    obtain ⟨hb1, hb2⟩ := hb
    rw [beq_iff_eq] at ha1 ha2 hb1 hb2
    unfold rowLE
    right
    exact ⟨ha1.trans hb1.symm, le_of_eq (ha2.trans hb2.symm)⟩

end DataPrep
